import Mathlib

/-!
Verification development for the mc-sftp gateway (materials-commons/mc-sftp).

The Go sources are shallowly embedded: paths and other Go strings are
`List Char`, fallible operations return `Except`/`Option` (`Option.none`
models a Go runtime panic), the relational stores are oracle functions
carried in a `Stores` record, and the per-session handler state is an
explicit record threaded through the callbacks.  Store traffic that the
claims talk about (project-store lookups, store writes) is counted
explicitly in the return values of the embedded callbacks.
-/

/-- A Go string (paths, slugs, method names) as a list of characters. -/
abbrev GoStr := List Char

/-- Embeds `strings.Split(path, "/")` from Go's standard library, specialised to the
separator `/` as used by `mc.GetProjectSlugFromPath` (src/pkg/mc/util.go:35).
`splitOnSlash p` is never empty; splitting the empty string yields `[[]]`. -/
def consHead (c : Char) : List GoStr → List GoStr
  | [] => [[c]]
  | s :: rest => (c :: s) :: rest

def splitOnSlash : GoStr → List GoStr
  | [] => [[]]
  | c :: t =>
    if c = '/' then [] :: splitOnSlash t
    else consHead c (splitOnSlash t)

/-- A `strings.Join`-style interleaving with `/`, used to rebuild the cleaned
path from its segments (the output form of Go's `filepath.Clean`). -/
def intercalateSlash : List GoStr → GoStr
  | [] => []
  | [s] => s
  | s :: rest => s ++ '/' :: intercalateSlash rest

/-- The segment-stack loop of Go's `path/filepath.Clean` (unix separator).
`stack` holds the already-emitted segments in reverse order.  Empty and `.`
segments are dropped; `..` pops a non-`..` segment, is dropped at the root,
and is kept for relative paths that escape upward. -/
def cleanSegsAux (rooted : Bool) : List GoStr → List GoStr → List GoStr
  | stack, [] => stack
  | stack, seg :: rest =>
    if seg = [] ∨ seg = ['.'] then
      cleanSegsAux rooted stack rest
    else if seg = ['.', '.'] then
      match stack with
      | [] =>
        if rooted then cleanSegsAux rooted [] rest
        else cleanSegsAux rooted [['.', '.']] rest
      | s :: stack' =>
        if s = ['.', '.'] then cleanSegsAux rooted (seg :: s :: stack') rest
        else cleanSegsAux rooted stack' rest
    else
      cleanSegsAux rooted (seg :: stack) rest

/-- Go's `path/filepath.Clean` on a unix path, via its segment semantics:
collapse duplicate separators and `.`, resolve `..`, keep rootedness, and
return `.` for an empty relative result. -/
def goClean (p : GoStr) : GoStr :=
  if p = [] then ['.']
  else
    let rooted := p.head? = some '/'
    let segs := (cleanSegsAux rooted [] (splitOnSlash p)).reverse
    if rooted then '/' :: intercalateSlash segs
    else if segs = [] then ['.'] else intercalateSlash segs

/-- Go's `filepath.Join("/", b)` as used for `sluggedNamePath` in
`mc.RemoveProjectSlugFromPath` (src/pkg/mc/util.go:19): empty elements are
skipped before joining with `/`, and the join is cleaned. -/
def goFilepathJoinRoot (b : GoStr) : GoStr :=
  if b = [] then goClean ['/'] else goClean ('/' :: '/' :: b)

/-- Embeds `mc.RemoveProjectSlugFromPath` (src/pkg/mc/util.go:17-30): clean the
path, strip the `/<slug>` string prefix when present, and return `/` for an
empty remainder. -/
def RemoveProjectSlugFromPath (path projectSlug : GoStr) : GoStr :=
  let cleanedPath := goClean path
  let sluggedNamePath := goFilepathJoinRoot projectSlug
  let cleanedPath :=
    if sluggedNamePath.isPrefixOf cleanedPath then
      cleanedPath.drop sluggedNamePath.length
    else cleanedPath
  if cleanedPath = [] then ['/'] else cleanedPath

/-- Embeds `mc.GetProjectSlugFromPath` (src/pkg/mc/util.go:34-44): split on `/` and
read element 1 unconditionally.  The Go code indexes `parts[1]` without a
bounds check, so a missing element is a runtime panic; `none` models that
panic. -/
def GetProjectSlugFromPath (path : GoStr) : Option GoStr :=
  (splitOnSlash path)[1]?

/-- Embeds `getPathFromRequest` (src/pkg/mcsftp/handler.go:365-369): extract the
slug from the request path, then strip it.  A panic in the slug extraction
propagates (`none`). -/
def getPathFromRequest (path : GoStr) : Option GoStr :=
  (GetProjectSlugFromPath path).map (fun slug => RemoveProjectSlugFromPath path slug)

/-- A valid project slug per the spec's virtual-path grammar: non-empty and
URL-safe (lowercase letters, digits, hyphens), hence in particular free of
`/` and of dot segments. -/
def validSlug (S : GoStr) : Prop :=
  S ≠ [] ∧ ∀ c ∈ S, (c.isLower || c.isDigit || c == '-') = true

instance validSlugDecidable : DecidablePred validSlug := fun S =>
  inferInstanceAs (Decidable (S ≠ [] ∧ ∀ c ∈ S, (c.isLower || c.isDigit || c == '-') = true))

/-- The segment kept by `filepath.Clean`: neither empty nor `.`. -/
def goodSeg (s : GoStr) : Bool := decide (¬(s = [] ∨ s = ['.']))

/-- Embeds `mcmodel.Project` (external gomcdb), restricted to the fields the gateway
reads: numeric id, human name, slug, reported size and updated-at. -/
structure Project where
  id : Nat
  name : GoStr
  slug : GoStr
  size : Nat
  updatedAt : Int
deriving DecidableEq

/-- Embeds `mcmodel.File` (external gomcdb), restricted to the fields the gateway
reads: name, MIME type, size, in-project path, updated-at, and the
storage-UUID-derived relative path used by `ToUnderlyingFilePath`. -/
structure MCModelFile where
  name : GoStr
  mimeType : GoStr
  size : Nat
  path : GoStr
  updatedAt : Int
  uuidRel : GoStr
deriving DecidableEq

/-- The `os.FileInfo` view the SFTP library consumes. -/
structure FileInfo where
  name : GoStr
  size : Nat
  modTime : Int
  isDir : Bool
deriving DecidableEq

/-- Modelled from the spec: `mcmodel.File.ToFileInfo` lives in the external
gomcdb module, not in this repository.  Per the spec (§3, §4.5) a listing
entry carries the file's name, size and updated-at, and a directory row is
"distinguished by a directory MIME tag". -/
def MCModelFile.toFileInfo (f : MCModelFile) : FileInfo :=
  { name := f.name, size := f.size, modTime := f.updatedAt,
    isDir := f.mimeType == "directory".data }

/-- The `fs.DirEntry` view the SCP walker consumes. -/
structure DirEntry where
  name : GoStr
  isDir : Bool
deriving DecidableEq

/-- Modelled from the spec: `mcmodel.File.ToDirEntry` lives in the external
gomcdb module; the entry exposes the name and the directory flag derived
from the directory MIME tag. -/
def MCModelFile.toDirEntry (f : MCModelFile) : DirEntry :=
  { name := f.name, isDir := f.mimeType == "directory".data }

/-- Modelled from the spec: `mcmodel.File.ToUnderlyingFilePath(root)` lives in
the external gomcdb module; per §6 it yields "an absolute path under a
configured storage root", determined by the file's storage UUID.  We model it
as the root followed by the UUID-derived relative path. -/
def toUnderlyingFilePath (root : GoStr) (f : MCModelFile) : GoStr :=
  root ++ '/' :: f.uuidRel

/-- The store façade (`mc.Stores` wrapping gomcdb's project/file/conversion
stores), as oracle functions.  Failures carry the store's error text. -/
structure Stores where
  getProjectBySlug : GoStr → Except GoStr Project
  userCanAccessProject : Nat → Nat → Bool
  getProjectsForUser : Nat → Except GoStr (List Project)
  getFileByPath : Nat → GoStr → Except GoStr MCModelFile
  getDirByPath : Nat → GoStr → Except GoStr MCModelFile
  listDirectoryByPath : Nat → GoStr → Except GoStr (List MCModelFile)
  getOrCreateDirPath : Nat → Nat → GoStr → Except GoStr MCModelFile

deriving instance DecidableEq for Except

def exceptErrMsg {α : Type} : Except GoStr α → GoStr
  | .error e => e
  | .ok _ => []

def exceptIsError {α : Type} : Except GoStr α → Bool
  | .error _ => true
  | .ok _ => false

/-- The SFTP per-session handler state (`mcfsHandler`,
src/pkg/mcsftp/handler.go:34-52): the authenticated user, the configured
storage root, and the two per-session caches (`projects`,
`projectsWithoutAccess`), both keyed by project slug. -/
structure McfsHandler where
  userId : Nat
  mcfsRoot : GoStr
  projects : List (GoStr × Project)
  projectsWithoutAccess : List GoStr
deriving DecidableEq

/-- Embeds `NewMCFSHandler` (src/pkg/mcsftp/handler.go:55-68): fresh handler with
empty caches. -/
def NewMCFSHandler (userId : Nat) (mcfsRoot : GoStr) : McfsHandler :=
  { userId := userId, mcfsRoot := mcfsRoot, projects := [], projectsWithoutAccess := [] }

/-- Embeds `mc.GetAndValidateProjectFromPath` (src/pkg/mc/util.go:66-84): extract the
slug (panic propagates as `none`), look the project up by slug, then check
access.  The returned `Nat` counts the project-store calls made
(`GetProjectBySlug`, `UserCanAccessProject`). -/
def GetAndValidateProjectFromPath (path : GoStr) (userID : Nat) (st : Stores) :
    Option (Except GoStr Project × Nat) :=
  match GetProjectSlugFromPath path with
  | none => none
  | some projectSlug =>
    match st.getProjectBySlug projectSlug with
    | .error e => some (.error e, 1)
    | .ok project =>
      if st.userCanAccessProject userID project.id then some (.ok project, 2)
      else some (.error ("no such project ".data ++ projectSlug), 2)

/-- Embeds `mcfsHandler.getProject` (src/pkg/mcsftp/handler.go:317-361): consult the
resolved-projects cache, then the denied-slugs cache, and only then the store
via `GetAndValidateProjectFromPath`, filling the appropriate cache.  The
`Nat` counts project-store calls.  (The source's cast-failure branch for a
non-`*mcmodel.Project` cache value is unreachable in this typed model.) -/
def McfsHandler.getProject (h : McfsHandler) (st : Stores) (filepath : GoStr) :
    Option (Except GoStr Project × McfsHandler × Nat) :=
  match GetProjectSlugFromPath filepath with
  | none => none
  | some projectSlug =>
    match h.projects.lookup projectSlug with
    | some p => some (.ok p, h, 0)
    | none =>
      if projectSlug ∈ h.projectsWithoutAccess then
        some (.error ("no such project: ".data ++ projectSlug), h, 0)
      else
        match GetAndValidateProjectFromPath filepath h.userId st with
        | none => none
        | some (.error e, n) =>
          some (.error e,
            { h with projectsWithoutAccess := projectSlug :: h.projectsWithoutAccess }, n)
        | some (.ok project, n) =>
          some (.ok project, { h with projects := (projectSlug, project) :: h.projects }, n)

/-- A session trace: the handler state after a sequence of `getProject`
resolves (a panicking resolve leaves the caches untouched). -/
def McfsHandler.runResolves (h : McfsHandler) (st : Stores) : List GoStr → McfsHandler
  | [] => h
  | p :: rest =>
    match h.getProject st p with
    | none => McfsHandler.runResolves h st rest
    | some (_, h', _) => McfsHandler.runResolves h' st rest

/-- Embeds `mcfsHandler.Filecmd` (src/pkg/mcsftp/handler.go:167-195): resolve the
project, then dispatch on the method; only `Mkdir` touches the store
(`GetOrCreateDirPath`).  Result: (outcome, new handler, project-store calls,
store-write calls). -/
def McfsHandler.filecmd (h : McfsHandler) (st : Stores) (method filepath : GoStr) :
    Option (Except GoStr Unit × McfsHandler × Nat × Nat) :=
  match h.getProject st filepath with
  | none => none
  | some (.error e, h', n) => some (.error e, h', n, 0)
  | some (.ok project, h', n) =>
    match getPathFromRequest filepath with
    | none => none
    | some path =>
      if method = "Mkdir".data then
        match st.getOrCreateDirPath project.id h.userId path with
        | .error e => some (.error e, h', n, 1)
        | .ok _ => some (.ok (), h', n, 1)
      else if method = "Rename".data then
        some (.error "unsupported command: 'Rename'".data, h', n, 0)
      else if method = "Rmdir".data then
        some (.error "unsupported command: 'Rmdir'".data, h', n, 0)
      else if method = "Setstat".data then
        some (.error "unsupported command: 'Setstat'".data, h', n, 0)
      else if method = "Link".data then
        some (.error "unsupported command: 'Link'".data, h', n, 0)
      else if method = "Symlink".data then
        some (.error "unsupported command: 'Symlink'".data, h', n, 0)
      else
        some (.error ("unsupport command: '".data ++ method ++ "'".data), h', n, 0)

/-- Embeds `mcfsHandler.Filelist` (src/pkg/mcsftp/handler.go:199-280): the synthetic
root listing and root stat come first; otherwise resolve the project and
dispatch on List/Stat/Readlink.  `now` stands for `time.Now()`.  Store
lookup failures surface as `os.ErrNotExist` ("file does not exist"). -/
def McfsHandler.filelist (h : McfsHandler) (st : Stores) (method filepath : GoStr)
    (now : Int) : Option (Except GoStr (List FileInfo) × McfsHandler × Nat) :=
  if filepath = "/".data ∧ method = "List".data then
    match st.getProjectsForUser h.userId with
    | .error e => some (.error ("unable to get list of projects: ".data ++ e), h, 1)
    | .ok projects =>
      some (.ok (projects.map fun project =>
        MCModelFile.toFileInfo
          { name := project.slug, mimeType := "directory".data, size := project.size,
            path := goFilepathJoinRoot project.slug, updatedAt := project.updatedAt,
            uuidRel := [] }), h, 1)
  else if filepath = "/".data ∧ method = "Stat".data then
    some (.ok [MCModelFile.toFileInfo
      { name := "/".data, mimeType := "directory".data, size := 0, path := "/".data,
        updatedAt := now, uuidRel := [] }], h, 0)
  else
    match getPathFromRequest filepath with
    | none => none
    | some path =>
      match h.getProject st filepath with
      | none => none
      | some (.error _, h', n) => some (.error "file does not exist".data, h', n)
      | some (.ok project, h', n) =>
        if method = "List".data then
          match st.listDirectoryByPath project.id path with
          | .error _ => some (.error "file does not exist".data, h', n)
          | .ok files => some (.ok (files.map MCModelFile.toFileInfo), h', n)
        else if method = "Stat".data then
          match st.getFileByPath project.id path with
          | .error _ => some (.error "file does not exist".data, h', n)
          | .ok file => some (.ok [file.toFileInfo], h', n)
        else if method = "Readlink".data then
          some (.error "unsupported command: 'Readlink'".data, h', n)
        else
          some (.error ("unsupport command: '".data ++ method ++ "'".data), h', n)

/-- Embeds `listerat.ListAt` (src/pkg/mcsftp/listerat.go:12-27): end-of-stream when
the offset is past the snapshot, otherwise a Go `copy` of the tail into the
caller's buffer; EOF exactly when the buffer was not filled.  Result:
(buffer after the copy, entries copied, EOF flag). -/
def ListAt (f files : List FileInfo) (offset : Int) : List FileInfo × Nat × Bool :=
  if (f.length : Int) ≤ offset then (files, 0, true)
  else
    let src := f.drop offset.toNat
    let n := min files.length src.length
    let filled := src.take n ++ files.drop n
    if n < files.length then (filled, n, true) else (filled, n, false)

/-- The `mcfile` write/read handle (src/unnamed/part_004:456-481): the file
row, the open-for-write flag, the running hasher (modelled as the byte
stream fed to it, in feed order) and the `mcfsRoot` field. -/
structure McfileState where
  file : MCModelFile
  openForWrite : Bool
  hasher : List Nat
  mcfsRoot : GoStr
deriving DecidableEq

/-- Embeds `mcfile.isOpenForRead` (src/unnamed/part_004:515-517). -/
def McfileState.isOpenForRead (f : McfileState) : Bool := f.openForWrite == false

/-- Embeds `createMCFileFromRequest` (src/pkg/mcsftp/handler.go:144-163): the struct
literal populates only `project`, `dir` and `stores`; every other field —
`mcfsRoot` included — keeps its Go zero value (empty string / nil / false).
The file row is attached afterwards by `Fileread`/`Filewrite`. -/
def createMCFileFromRequest : McfileState :=
  { file := { name := [], mimeType := [], size := 0, path := [], updatedAt := 0, uuidRel := [] },
    openForWrite := false, hasher := [], mcfsRoot := [] }

/-- The write-path setup of `Filewrite` (src/pkg/mcsftp/handler.go:99-139) on
top of `createMCFileFromRequest`: attach the created file row, create the
physical file at `file.ToUnderlyingFilePath(h.mcfsRoot)` — the HANDLER's
configured root — and mark the handle open-for-write with a fresh hasher.
The handle's own `mcfsRoot` field is never assigned.  Returns the handle and
the disk with the created file. -/
def Filewrite (h : McfsHandler) (file : MCModelFile) (disk : List GoStr) :
    McfileState × List GoStr :=
  ({ createMCFileFromRequest with file := file, openForWrite := true, hasher := [] },
   toUnderlyingFilePath h.mcfsRoot file :: disk)

/-- Embeds `os.Remove`: delete the path if present; report an error (`true`) when
the path does not exist. -/
def osRemove (p : GoStr) (disk : List GoStr) : List GoStr × Bool :=
  if p ∈ disk then (disk.erase p, false) else (disk, true)

structure CloseResult where
  returned : Option GoStr
  disk : List GoStr
  logged : List GoStr
deriving DecidableEq

/-- Embeds `mcfile.Close` (src/unnamed/part_004:523-562): read handles do nothing
further; write handles stat the OS handle, call `DoneWritingToFile` (its
duplicate flag and error are the `dupFound`/`dupErr` oracles; an error is
logged), and the deferred block then removes
`file.ToUnderlyingFilePath(f.mcfsRoot)` when a duplicate was found, with the
removal's error discarded (`_ = os.Remove(...)`) rather than logged.  Close
always returns nil.  (The stat-failure early return performs no removal and
is not modelled separately.) -/
def McfileState.close (f : McfileState) (dupFound : Bool) (dupErr : Option GoStr)
    (disk logged : List GoStr) : CloseResult :=
  if f.isOpenForRead then
    { returned := none, disk := disk, logged := logged }
  else
    let logged :=
      match dupErr with
      | some e => logged ++ [("Failure updating file and project metadata: ".data ++ e)]
      | none => logged
    if dupFound then
      { returned := none,
        disk := (osRemove (toUnderlyingFilePath f.mcfsRoot f.file) disk).1,
        logged := logged }
    else
      { returned := none, disk := disk, logged := logged }

/-- Embeds `mcfile.WriteAt` (src/unnamed/part_004:485-501): delegate to the OS
handle (outcome given by the oracle pair `osWritten`/`osFailed`); on failure
return without touching the hasher; on success feed exactly the written
prefix `b[:n]` to the hasher.  The offset is passed to the OS handle only. -/
def McfileState.writeAt (f : McfileState) (b : List Nat) (offset : Int)
    (osWritten : Nat) (osFailed : Bool) : McfileState × Nat × Bool :=
  if osFailed then (f, osWritten, true)
  else ({ f with hasher := f.hasher ++ b.take osWritten }, osWritten, false)

/-- One `WriteAt` call with its OS outcome. -/
structure WriteCall where
  buf : List Nat
  offset : Int
  osWritten : Nat
  osFailed : Bool

/-- A sequence of `WriteAt` calls in arrival order. -/
def McfileState.runWrites (f : McfileState) : List WriteCall → McfileState
  | [] => f
  | c :: rest => ((f.writeAt c.buf c.offset c.osWritten c.osFailed).1).runWrites rest

/-- The byte stream the spec says the hasher digests: the successful calls'
written prefixes, concatenated in call-arrival order, offsets ignored. -/
def hashedStream : List WriteCall → List Nat
  | [] => []
  | c :: rest => (if c.osFailed then [] else c.buf.take c.osWritten) ++ hashedStream rest

/-- A visitor's verdict (`fs.WalkDirFunc` return): nil, `filepath.SkipDir`,
or another error. -/
inductive WalkRes where
  | ok
  | skipDir
  | fail (e : GoStr)
deriving DecidableEq

/-- Walk outcome: nil, the `SkipDir` sentinel, or an error message. -/
inductive WalkErr where
  | skipDir
  | msg (e : GoStr)
deriving DecidableEq

/-- The visitor callback: receives (path, dir-entry or nil, error or nil). -/
abbrev Visitor := GoStr → Option DirEntry → Option GoStr → WalkRes

/-- A recorded visitor invocation. -/
abbrev Invocation := GoStr × Option DirEntry × Option GoStr

/-- The SCP per-connection handler (src/pkg/mcscp/handler.go:20-39): lazily
loaded project, the fatal `invalidProject` flag, and the storage root. -/
structure ScpHandler where
  project : Option Project
  invalidProject : Bool
  mcfsRoot : GoStr
deriving DecidableEq

def NewSCPHandler (mcfsRoot : GoStr) : ScpHandler :=
  { project := none, invalidProject := false, mcfsRoot := mcfsRoot }

/-- Embeds `loadProjectIntoHandler` (src/pkg/mcscp/handler.go:298-335): return the
cached project, short-circuit via `invalidProject`, otherwise look the slug
up and check access, recording failures in `invalidProject`. -/
def ScpHandler.loadProjectIntoHandler (h : ScpHandler) (st : Stores) (path : GoStr)
    (userID : Nat) : Option (Except GoStr Unit × ScpHandler) :=
  match h.project with
  | some _ => some (.ok (), h)
  | none =>
    match GetProjectSlugFromPath path with
    | none => none
    | some projectSlug =>
      if h.invalidProject then
        some (.error ("no such project ".data ++ projectSlug), h)
      else
        match st.getProjectBySlug projectSlug with
        | .error e => some (.error e, { h with invalidProject := true })
        | .ok project =>
          if st.userCanAccessProject userID project.id then
            some (.ok (), { h with project := some project })
          else
            some (.error ("no such project ".data ++ projectSlug),
              { h with invalidProject := true })

/-- Go's `filepath.Join(a, b)` for two parts. -/
def goFilepathJoin2 (a b : GoStr) : GoStr := goClean (a ++ '/' :: b)

/-- The child loop of `walkDir` (src/pkg/mcscp/handler.go:101-110): walk each
child; `SkipDir` from a child breaks the loop (walk returns nil), any other
error propagates. -/
def walkChildrenWith (step : GoStr → DirEntry → Option WalkErr × List Invocation) :
    GoStr → List MCModelFile → Option WalkErr × List Invocation
  | _, [] => (none, [])
  | path, dir :: rest =>
    match step (goFilepathJoin2 path dir.name) dir.toDirEntry with
    | (some WalkErr.skipDir, inv) => (none, inv)
    | (some e, inv) => (some e, inv)
    | (none, inv) =>
      let r := walkChildrenWith step path rest
      (r.1, inv ++ r.2)

/-- Embeds `walkDir` (src/pkg/mcscp/handler.go:83-112): invoke the visitor with
(path, entry, nil); `SkipDir` on a directory suppresses descent, any other
error (or a non-directory) returns; then list the children (a listing error
is passed to the visitor, whose verdict decides) and recurse.  The source
recursion is store-driven; `fuel` bounds the depth. -/
def walkDirRec (st : Stores) (projectId : Nat) (fn : Visitor) :
    Nat → GoStr → DirEntry → Option WalkErr × List Invocation
  | 0, _, _ => (some (WalkErr.msg "walk depth exhausted".data), [])
  | fuel + 1, path, d =>
    let inv : Invocation := (path, some d, none)
    match fn path (some d) none with
    | WalkRes.skipDir =>
      if d.isDir then (none, [inv]) else (some WalkErr.skipDir, [inv])
    | WalkRes.fail e => (some (WalkErr.msg e), [inv])
    | WalkRes.ok =>
      if !d.isDir then (none, [inv])
      else
        match st.listDirectoryByPath projectId path with
        | .error e =>
          let inv2 : Invocation := (path, some d, some e)
          match fn path (some d) (some e) with
          | WalkRes.ok => (none, [inv, inv2])
          | WalkRes.skipDir => (some WalkErr.skipDir, [inv, inv2])
          | WalkRes.fail e2 => (some (WalkErr.msg e2), [inv, inv2])
        | .ok dirs =>
          let rc := walkChildrenWith (walkDirRec st projectId fn fuel) path dirs
          (rc.1, inv :: rc.2)

/-- The part of `WalkDir` (src/pkg/mcscp/handler.go:64-80) behind the guard:
load the project, clean the path (note: the source strips `h.project.Name`,
not the slug), look up the root directory — on failure the visitor is
invoked once with (path, nil, err) and its verdict decides — otherwise run
the recursive walk; a `SkipDir` outcome converts to nil. -/
def scpWalkDirEnabled (h : ScpHandler) (st : Stores) (userId : Nat) (path : GoStr)
    (fn : Visitor) (fuel : Nat) : Option (Except GoStr Unit × List Invocation × ScpHandler) :=
  match h.loadProjectIntoHandler st path userId with
  | none => none
  | some (.error e, h') => some (.error e, [], h')
  | some (.ok _, h') =>
    match h'.project with
    | none => none
    | some project =>
      let cleanedPath := RemoveProjectSlugFromPath path project.name
      match st.getDirByPath project.id cleanedPath with
      | .error e =>
        let inv : Invocation := (cleanedPath, none, some e)
        match fn cleanedPath none (some e) with
        | WalkRes.skipDir => some (.ok (), [inv], h')
        | WalkRes.ok => some (.ok (), [inv], h')
        | WalkRes.fail e2 => some (.error e2, [inv], h')
      | .ok d =>
        match walkDirRec st project.id fn fuel cleanedPath d.toDirEntry with
        | (none, invs) => some (.ok (), invs, h')
        | (some WalkErr.skipDir, invs) => some (.ok (), invs, h')
        | (some (WalkErr.msg e), invs) => some (.error e, invs, h')

/-- Embeds `WalkDir` (src/pkg/mcscp/handler.go:59-81).  The body opens with
`if true { return fmt.Errorf("not implemented") }` (lines 61-63), so the
project load and the traversal below the guard are unreachable. -/
def WalkDir (h : ScpHandler) (st : Stores) (userId : Nat) (path : GoStr) (fn : Visitor)
    (fuel : Nat) : Option (Except GoStr Unit × List Invocation × ScpHandler) :=
  if true then some (.error "not implemented".data, [], h)
  else scpWalkDirEnabled h st userId path fn fuel

/-- Whether a `getProject` outcome is a successful resolution. -/
def resolvedOk (x : Option (Except GoStr Project × McfsHandler × Nat)) : Bool :=
  match x with
  | some (.ok _, _, _) => true
  | _ => false

/-- The error text of a failed `getProject` outcome (empty otherwise). -/
def resolutionErr (x : Option (Except GoStr Project × McfsHandler × Nat)) : GoStr :=
  match x with
  | some (.error e, _, _) => e
  | _ => []

/-- The two per-session caches are disjoint: a slug recorded as denied has no
entry in the resolved-projects cache. -/
def cachesDisjoint (h : McfsHandler) : Prop :=
  ∀ s, s ∈ h.projectsWithoutAccess → h.projects.lookup s = none

/-- Concrete fixtures used by witnesses and counterexamples. -/
def projAlloy : Project :=
  { id := 7, name := "Alloy 42".data, slug := "alloy-42".data, size := 2048,
    updatedAt := 1700000000 }

def projBeta : Project :=
  { id := 8, name := "Beta".data, slug := "beta-1".data, size := 10,
    updatedAt := 1700000500 }

def fileLocal : MCModelFile :=
  { name := "local.txt".data, mimeType := "text/plain".data, size := 2,
    path := "/dir1/local.txt".data, updatedAt := 1700000100,
    uuidRel := "ab/cd/uuid-1".data }

/-- A small store: user 1 can access `alloy-42` and `beta-1`; every other
slug is unknown ("record not found"). -/
def sampleStores : Stores :=
  { getProjectBySlug := fun slug =>
      if slug = "alloy-42".data then .ok projAlloy
      else if slug = "beta-1".data then .ok projBeta
      else .error "record not found".data,
    userCanAccessProject := fun uid pid => decide (uid = 1 ∧ (pid = 7 ∨ pid = 8)),
    getProjectsForUser := fun uid =>
      if uid = 1 then .ok [projAlloy, projBeta] else .ok [],
    getFileByPath := fun _ _ => .error "file not found".data,
    getDirByPath := fun _ _ => .error "dir not found".data,
    listDirectoryByPath := fun _ _ => .ok [],
    getOrCreateDirPath := fun _ _ _ => .error "store write rejected".data }

-- Sanity checks of the codec embedding against Go behaviour.
example : goClean "/my-project-acf4/file.txt".data = "/my-project-acf4/file.txt".data := by decide
example : goClean "/ab/../abx".data = "/abx".data := by decide
example : goClean "/a//b/./c/".data = "/a/b/c".data := by decide
example : goClean "a/../../b".data = "../b".data := by decide
example : RemoveProjectSlugFromPath "/my-project-acf4/file.txt".data "my-project-acf4".data = "/file.txt".data := by decide
example : RemoveProjectSlugFromPath "/my-project-acf4".data "my-project-acf4".data = "/".data := by decide
example : GetProjectSlugFromPath "/my-project/this/that".data = some "my-project".data := by decide

/-- Splitting a string without a separator yields the single piece. -/
theorem splitOnSlash_no_sep (p : GoStr) (h : '/' ∉ p) : splitOnSlash p = [p] := by
  induction p with
  | nil => rfl
  | cons c t ih =>
    have hc : ¬(c = '/') := fun hcc => h (hcc ▸ List.mem_cons_self c t)
    have ht : '/' ∉ t := fun hm => h (List.mem_cons_of_mem c hm)
    simp only [splitOnSlash, if_neg hc, ih ht, consHead]

/-- C10: for every path without a `/` separator (the empty string included),
`GetProjectSlugFromPath` reads past the end of the one-element split result,
i.e. the Go code panics with an index-out-of-range error instead of
returning a slug or an error, and `getPathFromRequest` — used by the SFTP
handler callbacks to derive the in-project path — panics along with it. -/
theorem getProjectSlugFromPath_panics_without_separator (p : GoStr) (h : '/' ∉ p) :
    GetProjectSlugFromPath p = none ∧ getPathFromRequest p = none := by
  have hs : splitOnSlash p = [p] := splitOnSlash_no_sep p h
  constructor
  · simp [GetProjectSlugFromPath, hs]
  · simp [getPathFromRequest, GetProjectSlugFromPath, hs]

/-- Witness for C10 at the concrete inputs `"abc"` and `""`. -/
theorem getProjectSlugFromPath_panics_without_separator_witness :
    (GetProjectSlugFromPath "abc".data = none ∧ getPathFromRequest "abc".data = none)
      ∧ (GetProjectSlugFromPath "".data = none ∧ getPathFromRequest "".data = none) :=
  ⟨getProjectSlugFromPath_panics_without_separator "abc".data (by decide),
   getProjectSlugFromPath_panics_without_separator "".data (by decide)⟩

theorem validSlug_no_slash {S : GoStr} (h : validSlug S) : '/' ∉ S := by
  intro hm
  have hc := h.2 '/' hm
  revert hc
  decide

theorem validSlug_no_dot {S : GoStr} (h : validSlug S) : '.' ∉ S := by
  intro hm
  have hc := h.2 '.' hm
  revert hc
  decide

theorem validSlug_ne_dot {S : GoStr} (h : validSlug S) : S ≠ ['.'] := by
  intro he
  exact validSlug_no_dot h (he ▸ List.mem_cons_self '.' [])

theorem validSlug_ne_dotdot {S : GoStr} (h : validSlug S) : S ≠ ['.', '.'] := by
  intro he
  exact validSlug_no_dot h (he ▸ List.mem_cons_self '.' ['.'])

theorem splitOnSlash_cons_slash (t : GoStr) :
    splitOnSlash ('/' :: t) = [] :: splitOnSlash t := by
  simp [splitOnSlash]

/-- Splitting `S ++ rest` when `S` has no separator prepends `S` to the first
piece of the split of `rest`. -/
theorem splitOnSlash_append_no_sep (S rest : GoStr) (s : GoStr) (r : List GoStr)
    (hS : '/' ∉ S) (hrest : splitOnSlash rest = s :: r) :
    splitOnSlash (S ++ rest) = (S ++ s) :: r := by
  induction S with
  | nil => simpa using hrest
  | cons c S' ih =>
    have hc : ¬(c = '/') := fun hcc => hS (hcc ▸ List.mem_cons_self c S')
    have hS' : '/' ∉ S' := fun hm => hS (List.mem_cons_of_mem c hm)
    have hrec := ih hS'
    simp only [List.cons_append, splitOnSlash, if_neg hc, List.append_eq, hrec, consHead]

/-- On segment lists free of `..`, the `Clean` stack loop is a plain filter. -/
theorem cleanSegsAux_no_dotdot (rooted : Bool) (segs : List GoStr)
    (h : ['.', '.'] ∉ segs) (stack : List GoStr) :
    cleanSegsAux rooted stack segs = (segs.filter goodSeg).reverse ++ stack := by
  induction segs generalizing stack with
  | nil => simp [cleanSegsAux]
  | cons seg rest ih =>
    have hseg : seg ≠ ['.', '.'] := fun he => h (he ▸ List.mem_cons_self seg rest)
    have hrest : ['.', '.'] ∉ rest := fun hm => h (List.mem_cons_of_mem seg hm)
    by_cases hdrop : seg = [] ∨ seg = ['.']
    · have hgood : goodSeg seg = false := by
        simp [goodSeg, hdrop]
      simp only [cleanSegsAux, if_pos hdrop, ih hrest, List.filter_cons, hgood]
      simp
    · have hgood : goodSeg seg = true := by
        simp [goodSeg, hdrop]
      simp only [cleanSegsAux, if_neg hdrop, if_neg hseg, ih hrest, List.filter_cons, hgood]
      simp

theorem intercalateSlash_cons (S : GoStr) (L : List GoStr) :
    intercalateSlash (S :: L) = if L = [] then S else S ++ '/' :: intercalateSlash L := by
  cases L with
  | nil => simp [intercalateSlash]
  | cons a t => simp [intercalateSlash]

/-- Lemma: `goClean` of a rooted path whose segments contain no `..` is `/` followed
by the kept segments interleaved with `/`. -/
theorem goClean_rooted_no_dotdot (t : GoStr)
    (h : ['.', '.'] ∉ splitOnSlash ('/' :: t)) :
    goClean ('/' :: t) =
      '/' :: intercalateSlash ((splitOnSlash ('/' :: t)).filter goodSeg) := by
  have hne : ('/' :: t : GoStr) ≠ [] := by simp
  simp only [goClean, if_neg hne, List.head?_cons, if_pos rfl]
  rw [cleanSegsAux_no_dotdot _ _ h, List.append_nil, List.reverse_reverse]
  simp

/-- For a valid slug, `filepath.Join("/", slug)` is just `/` ++ slug. -/
theorem goFilepathJoinRoot_validSlug (S : GoStr) (hS : validSlug S) :
    goFilepathJoinRoot S = '/' :: S := by
  have hsplit : splitOnSlash ('/' :: S) = [] :: [S] := by
    rw [splitOnSlash_cons_slash, splitOnSlash_no_sep S (validSlug_no_slash hS)]
  have hsplit2 : splitOnSlash ('/' :: '/' :: S) = [] :: [] :: [S] := by
    rw [splitOnSlash_cons_slash, hsplit]
  have hnodd : ['.', '.'] ∉ splitOnSlash ('/' :: '/' :: S) := by
    rw [hsplit2]
    intro hm
    simp only [List.mem_cons, List.not_mem_nil, or_false] at hm
    rcases hm with h1 | h1 | h1
    · exact absurd h1 (by decide)
    · exact absurd h1 (by decide)
    · exact (validSlug_ne_dotdot hS) h1.symm
  have hgoodS : goodSeg S = true := by
    simp [goodSeg, hS.1, validSlug_ne_dot hS]
  have h0 : goodSeg ([] : GoStr) = false := by decide
  have hfil : List.filter goodSeg [[], [], S] = [S] := by
    simp [List.filter_cons, h0, hgoodS]
  rw [goFilepathJoinRoot, if_neg hS.1, goClean_rooted_no_dotdot _ hnodd, hsplit2, hfil]
  simp [intercalateSlash]

theorem goodSeg_nil : goodSeg ([] : GoStr) = false := by decide

theorem goodSeg_slug {S : GoStr} (hS : validSlug S) : goodSeg S = true := by
  simp [goodSeg, hS.1, validSlug_ne_dot hS]

theorem splitOnSlash_root_slug (S : GoStr) (h : '/' ∉ S) :
    splitOnSlash ('/' :: S) = [[], S] := by
  rw [splitOnSlash_cons_slash, splitOnSlash_no_sep S h]

theorem isPrefixOf_self (l : GoStr) : l.isPrefixOf l = true := by
  rw [List.isPrefixOf_iff_prefix]

theorem isPrefixOf_append (l t : GoStr) : l.isPrefixOf (l ++ t) = true := by
  rw [List.isPrefixOf_iff_prefix]
  exact List.prefix_append l t

/-- Lemma: `goClean` leaves `/<slug>` unchanged for a valid slug. -/
theorem goClean_root_slug {S : GoStr} (hS : validSlug S) : goClean ('/' :: S) = '/' :: S := by
  have hsplit : splitOnSlash ('/' :: S) = [[], S] :=
    splitOnSlash_root_slug S (validSlug_no_slash hS)
  have hnodd : ['.', '.'] ∉ splitOnSlash ('/' :: S) := by
    rw [hsplit]
    intro hm
    simp only [List.mem_cons, List.not_mem_nil, or_false] at hm
    rcases hm with h1 | h1
    · exact absurd h1 (by decide)
    · exact (validSlug_ne_dotdot hS) h1.symm
  have hfil : List.filter goodSeg [[], S] = [S] := by
    simp [List.filter_cons, goodSeg_nil, goodSeg_slug hS]
  rw [goClean_rooted_no_dotdot _ hnodd, hsplit, hfil]
  simp [intercalateSlash]

/-- C4 (counterexample): the claim quantifies over every sub-path `P`; for the
valid slug `ab` and the sub-path `/../abx`, cleaning `/ab/../abx` yields
`/abx`, whose string prefix `/ab` is then stripped, so strip returns `x`
instead of the canonicalised sub-path `/abx`. -/
theorem removeProjectSlugFromPath_dotdot_counterexample :
    validSlug "ab".data ∧
    ("/../abx".data : GoStr).head? = some '/' ∧
    RemoveProjectSlugFromPath "/ab/../abx".data "ab".data = "x".data ∧
    goClean "/../abx".data = "/abx".data ∧
    "x".data ≠ "/abx".data := by decide

/-- Evaluation of the strip once the cleaned path is `/<slug>` ++ X. -/
theorem removeProjectSlugFromPath_eval (path S X : GoStr)
    (hjoin : goFilepathJoinRoot S = '/' :: S)
    (hclean : goClean path = ('/' :: S) ++ X) :
    RemoveProjectSlugFromPath path S = if X = [] then ['/'] else X := by
  simp only [RemoveProjectSlugFromPath, hclean, hjoin, isPrefixOf_append,
    eq_self_iff_true, if_true, List.drop_left]

/-- C4 (amended): for every valid slug `S` and every sub-path `P` (empty or
starting with `/`) none of whose segments is `..`, extracting the slug from
`/` ++ S ++ P yields `S`, and stripping the slug yields the canonicalised
form of `P`, with `/` returned when `P` is empty.  (With `..` segments the
clean-then-string-strip composition can escape the slug, see the
counterexample.) -/
theorem pathRoundTrip (S P : GoStr) (hS : validSlug S)
    (hP : P = [] ∨ P.head? = some '/')
    (hdd : ['.', '.'] ∉ splitOnSlash P) :
    GetProjectSlugFromPath ('/' :: S ++ P) = some S ∧
    RemoveProjectSlugFromPath ('/' :: S ++ P) S = (if P = [] then ['/'] else goClean P) := by
  have hjoin : goFilepathJoinRoot S = '/' :: S := goFilepathJoinRoot_validSlug S hS
  rcases hP with hP | hP
  · subst hP
    have hsplit : splitOnSlash ('/' :: S) = [[], S] :=
      splitOnSlash_root_slug S (validSlug_no_slash hS)
    constructor
    · rw [GetProjectSlugFromPath, List.append_nil, hsplit]
      simp
    · rw [if_pos rfl, List.append_nil]
      have hclean : goClean ('/' :: S) = ('/' :: S) ++ [] := by
        rw [goClean_root_slug hS, List.append_nil]
      rw [removeProjectSlugFromPath_eval ('/' :: S) S [] hjoin hclean]
      simp
  · -- P starts with '/', say P = '/' :: P'
    obtain ⟨P', rfl⟩ : ∃ P', P = '/' :: P' := by
      cases P with
      | nil => simp at hP
      | cons c t =>
        simp only [List.head?_cons, Option.some.injEq] at hP
        exact ⟨t, by rw [hP]⟩
    have hPne : ('/' :: P' : GoStr) ≠ [] := by simp
    have hsplitP : splitOnSlash ('/' :: P') = [] :: splitOnSlash P' := splitOnSlash_cons_slash P'
    have hddsp : ['.', '.'] ∉ splitOnSlash P' := fun hm =>
      hdd (by rw [hsplitP]; exact List.mem_cons_of_mem _ hm)
    have hsplitSP : splitOnSlash (S ++ '/' :: P') = S :: splitOnSlash P' := by
      have := splitOnSlash_append_no_sep S ('/' :: P') [] (splitOnSlash P')
        (validSlug_no_slash hS) hsplitP
      simpa using this
    have hsplit_path : splitOnSlash ('/' :: S ++ '/' :: P') = [] :: S :: splitOnSlash P' := by
      rw [List.cons_append, splitOnSlash_cons_slash, hsplitSP]
    have hnodd_path : ['.', '.'] ∉ splitOnSlash ('/' :: S ++ '/' :: P') := by
      rw [hsplit_path]
      intro hm
      simp only [List.mem_cons] at hm
      rcases hm with h1 | h1 | h1
      · exact absurd h1 (by decide)
      · exact (validSlug_ne_dotdot hS) h1.symm
      · exact hddsp h1
    have hnodd_P : ['.', '.'] ∉ splitOnSlash ('/' :: P') := by
      rw [hsplitP]
      intro hm
      simp only [List.mem_cons] at hm
      rcases hm with h1 | h1
      · exact absurd h1 (by decide)
      · exact hddsp h1
    have hcleanP : goClean ('/' :: P')
        = '/' :: intercalateSlash (List.filter goodSeg (splitOnSlash P')) := by
      rw [goClean_rooted_no_dotdot _ hnodd_P, hsplitP]
      simp [List.filter_cons, goodSeg_nil]
    have hclean_path : goClean ('/' :: S ++ '/' :: P')
        = '/' :: intercalateSlash (S :: List.filter goodSeg (splitOnSlash P')) := by
      rw [List.cons_append] at hsplit_path ⊢
      rw [goClean_rooted_no_dotdot _ (by rw [← List.cons_append] at hsplit_path ⊢; exact hnodd_path),
        hsplit_path]
      simp [List.filter_cons, goodSeg_nil, goodSeg_slug hS]
    constructor
    · rw [GetProjectSlugFromPath, hsplit_path]
      simp
    · rw [if_neg hPne]
      by_cases hFnil : List.filter goodSeg (splitOnSlash P') = []
      · rw [hFnil] at hclean_path hcleanP
        have hi : intercalateSlash ([S] : List GoStr) = S := by simp [intercalateSlash]
        rw [hi] at hclean_path
        have hclean : goClean ('/' :: S ++ '/' :: P') = ('/' :: S) ++ [] := by
          rw [hclean_path, List.append_nil]
        rw [removeProjectSlugFromPath_eval _ S [] hjoin hclean, hcleanP]
        simp [intercalateSlash]
      · have hi : intercalateSlash (S :: List.filter goodSeg (splitOnSlash P'))
            = S ++ '/' :: intercalateSlash (List.filter goodSeg (splitOnSlash P')) := by
          rw [intercalateSlash_cons, if_neg hFnil]
        have hclean : goClean ('/' :: S ++ '/' :: P')
            = ('/' :: S) ++ ('/' :: intercalateSlash (List.filter goodSeg (splitOnSlash P'))) := by
          rw [hclean_path, hi]
          simp
        rw [removeProjectSlugFromPath_eval _ S _ hjoin hclean, hcleanP]
        simp

/-- Witness for the amended C4 at slug `alloy-42` and sub-path
`/dir1//./local.txt` (duplicate separator and `.` segment included). -/
theorem pathRoundTrip_witness :
    GetProjectSlugFromPath ('/' :: "alloy-42".data ++ "/dir1//./local.txt".data)
      = some "alloy-42".data ∧
    RemoveProjectSlugFromPath ('/' :: "alloy-42".data ++ "/dir1//./local.txt".data) "alloy-42".data
      = (if ("/dir1//./local.txt".data : GoStr) = [] then ['/']
         else goClean "/dir1//./local.txt".data) :=
  pathRoundTrip "alloy-42".data "/dir1//./local.txt".data (by decide)
    (Or.inr (by decide)) (by decide)

-- Sanity checks for the paging adapter.
example : ListAt [] [] 0 = ([], 0, true) := by decide
example :
    ListAt [⟨"a".data, 1, 0, true⟩, ⟨"b".data, 2, 0, true⟩] [⟨"z".data, 9, 9, false⟩] 1
      = ([⟨"b".data, 2, 0, true⟩], 1, false) := by decide
example :
    ListAt [⟨"a".data, 1, 0, true⟩, ⟨"b".data, 2, 0, true⟩] [⟨"z".data, 9, 9, false⟩] 2
      = ([⟨"z".data, 9, 9, false⟩], 0, true) := by decide

/-- C8: for every snapshot `f`, buffer and non-negative offset, `ListAt`
returns `(0, EOF)` once the offset is past the snapshot; otherwise it copies
`f[offset .. offset+n)` into the front of the buffer with
`n = min (length buffer) (length f - offset)`, returns `n`, and signals EOF
exactly when `n < length buffer`.  `ListAt` is a pure function of the
snapshot, so repeated calls on the same object read the same snapshot. -/
theorem listAt_spec (f files : List FileInfo) (offset : Int) (h0 : 0 ≤ offset) :
    ((f.length : Int) ≤ offset → ListAt f files offset = (files, 0, true)) ∧
    (offset < (f.length : Int) →
      (ListAt f files offset).2.1 = min files.length (f.length - offset.toNat) ∧
      (ListAt f files offset).1.take (min files.length (f.length - offset.toNat))
        = (f.drop offset.toNat).take (min files.length (f.length - offset.toNat)) ∧
      (ListAt f files offset).1.drop (min files.length (f.length - offset.toNat))
        = files.drop (min files.length (f.length - offset.toNat)) ∧
      ((ListAt f files offset).2.2 = true
        ↔ min files.length (f.length - offset.toNat) < files.length)) := by
  constructor
  · intro h
    simp [ListAt, if_pos h]
  · intro h
    have hne : ¬((f.length : Int) ≤ offset) := not_le.mpr h
    have hlen : (f.drop offset.toNat).length = f.length - offset.toNat :=
      List.length_drop offset.toNat f
    have hLA : ListAt f files offset
        = ((f.drop offset.toNat).take (min files.length (f.length - offset.toNat))
            ++ files.drop (min files.length (f.length - offset.toNat)),
          min files.length (f.length - offset.toNat),
          decide (min files.length (f.length - offset.toNat) < files.length)) := by
      by_cases hn : min files.length (f.length - offset.toNat) < files.length
      · simp [ListAt, if_neg hne, hlen, hn]
      · simp [ListAt, if_neg hne, hlen, hn]
    rw [hLA]
    have htk : ((f.drop offset.toNat).take
        (min files.length (f.length - offset.toNat))).length
        = min files.length (f.length - offset.toNat) := by
      apply List.length_take_of_le
      rw [hlen]
      exact min_le_right _ _
    exact ⟨rfl, List.take_left' htk, List.drop_left' htk, by simp⟩

/-- Witness for C8 at a two-entry snapshot, offset 1, one-slot buffer. -/
theorem listAt_spec_witness :
    ((([⟨"a".data, 1, 0, true⟩, ⟨"b".data, 2, 0, true⟩] : List FileInfo).length : Int) ≤ 1 →
      ListAt [⟨"a".data, 1, 0, true⟩, ⟨"b".data, 2, 0, true⟩] [⟨"z".data, 9, 9, false⟩] 1
        = ([⟨"z".data, 9, 9, false⟩], 0, true)) ∧
    (1 < (([⟨"a".data, 1, 0, true⟩, ⟨"b".data, 2, 0, true⟩] : List FileInfo).length : Int) →
      (ListAt [⟨"a".data, 1, 0, true⟩, ⟨"b".data, 2, 0, true⟩]
          [⟨"z".data, 9, 9, false⟩] 1).2.1
        = min ([⟨"z".data, 9, 9, false⟩] : List FileInfo).length
            (([⟨"a".data, 1, 0, true⟩, ⟨"b".data, 2, 0, true⟩] : List FileInfo).length
              - (1 : Int).toNat) ∧
      (ListAt [⟨"a".data, 1, 0, true⟩, ⟨"b".data, 2, 0, true⟩]
          [⟨"z".data, 9, 9, false⟩] 1).1.take
          (min ([⟨"z".data, 9, 9, false⟩] : List FileInfo).length
            (([⟨"a".data, 1, 0, true⟩, ⟨"b".data, 2, 0, true⟩] : List FileInfo).length
              - (1 : Int).toNat))
        = (([⟨"a".data, 1, 0, true⟩, ⟨"b".data, 2, 0, true⟩] : List FileInfo).drop
            (1 : Int).toNat).take
            (min ([⟨"z".data, 9, 9, false⟩] : List FileInfo).length
              (([⟨"a".data, 1, 0, true⟩, ⟨"b".data, 2, 0, true⟩] : List FileInfo).length
                - (1 : Int).toNat)) ∧
      (ListAt [⟨"a".data, 1, 0, true⟩, ⟨"b".data, 2, 0, true⟩]
          [⟨"z".data, 9, 9, false⟩] 1).1.drop
          (min ([⟨"z".data, 9, 9, false⟩] : List FileInfo).length
            (([⟨"a".data, 1, 0, true⟩, ⟨"b".data, 2, 0, true⟩] : List FileInfo).length
              - (1 : Int).toNat))
        = ([⟨"z".data, 9, 9, false⟩] : List FileInfo).drop
            (min ([⟨"z".data, 9, 9, false⟩] : List FileInfo).length
              (([⟨"a".data, 1, 0, true⟩, ⟨"b".data, 2, 0, true⟩] : List FileInfo).length
                - (1 : Int).toNat)) ∧
      ((ListAt [⟨"a".data, 1, 0, true⟩, ⟨"b".data, 2, 0, true⟩]
          [⟨"z".data, 9, 9, false⟩] 1).2.2 = true
        ↔ min ([⟨"z".data, 9, 9, false⟩] : List FileInfo).length
            (([⟨"a".data, 1, 0, true⟩, ⟨"b".data, 2, 0, true⟩] : List FileInfo).length
              - (1 : Int).toNat) < ([⟨"z".data, 9, 9, false⟩] : List FileInfo).length)) :=
  listAt_spec [⟨"a".data, 1, 0, true⟩, ⟨"b".data, 2, 0, true⟩] [⟨"z".data, 9, 9, false⟩] 1
    (by decide)

-- Out-of-order offsets: the hasher follows call order, not offset order.
example :
    ((createMCFileFromRequest.runWrites
        [⟨[7, 8], 100, 2, false⟩, ⟨[1, 2, 3], 0, 3, false⟩])).hasher
      = [7, 8, 1, 2, 3] := by decide
example :
    ((createMCFileFromRequest.runWrites
        [⟨[7, 8], 100, 1, true⟩, ⟨[1, 2, 3], 0, 3, false⟩])).hasher
      = [1, 2, 3] := by decide

/-- C5: for a write-opened handle, a successful OS `writeAt` of `n` bytes
feeds exactly the prefix `b[:n]` to the running hash, a failed OS write
feeds nothing, and over any sequence of `writeAt` calls the hash digests
bytes in call-arrival order (the concatenation of the successful written
prefixes), regardless of the offsets supplied. -/
theorem mcfileWriteAt_hash_arrival_order :
    (∀ (f : McfileState) (b : List Nat) (offset : Int) (n : Nat),
      (f.writeAt b offset n false).1.hasher = f.hasher ++ b.take n ∧
      (f.writeAt b offset n true).1.hasher = f.hasher) ∧
    (∀ (f : McfileState) (calls : List WriteCall),
      (f.runWrites calls).hasher = f.hasher ++ hashedStream calls) := by
  constructor
  · intro f b offset n
    constructor
    · simp [McfileState.writeAt]
    · simp [McfileState.writeAt]
  · intro f calls
    induction calls generalizing f with
    | nil => simp [McfileState.runWrites, hashedStream]
    | cons c rest ih =>
      by_cases hc : c.osFailed
      · simp [McfileState.runWrites, McfileState.writeAt, hc, ih, hashedStream]
      · simp [McfileState.runWrites, McfileState.writeAt, hc, ih, hashedStream,
          List.append_assoc]

/-- Direct evaluation of `getProject` on a resolved-cache hit. -/
theorem getProject_cached_eval (h : McfsHandler) (st : Stores) (path slug : GoStr)
    (p : Project) (hs : GetProjectSlugFromPath path = some slug)
    (hlk : h.projects.lookup slug = some p) :
    h.getProject st path = some (.ok p, h, 0) := by
  unfold McfsHandler.getProject
  simp only [hs, hlk]

/-- Direct evaluation of `getProject` on a denied-cache hit (for states where
the two caches are disjoint, so the resolved cache misses). -/
theorem getProject_denied_eval (h : McfsHandler) (st : Stores) (path slug : GoStr)
    (hs : GetProjectSlugFromPath path = some slug)
    (hlk : h.projects.lookup slug = none)
    (hd : slug ∈ h.projectsWithoutAccess) :
    h.getProject st path = some (.error ("no such project: ".data ++ slug), h, 0) := by
  unfold McfsHandler.getProject
  simp only [hs, hlk]
  rw [if_pos hd]

/-- One `getProject` step only ever leaves the state unchanged, adds a slug
to the denied cache, or adds a resolved project; the added slug was in
neither cache. -/
theorem getProject_state (h : McfsHandler) (st : Stores) (p : GoStr)
    (res : Except GoStr Project) (h' : McfsHandler) (n : Nat)
    (hr : h.getProject st p = some (res, h', n)) :
    h' = h ∨
    (∃ slug, h.projects.lookup slug = none ∧ slug ∉ h.projectsWithoutAccess ∧
      h' = { h with projectsWithoutAccess := slug :: h.projectsWithoutAccess }) ∨
    (∃ slug proj, h.projects.lookup slug = none ∧ slug ∉ h.projectsWithoutAccess ∧
      h' = { h with projects := (slug, proj) :: h.projects }) := by
  unfold McfsHandler.getProject at hr
  cases hslug : GetProjectSlugFromPath p with
  | none => simp [hslug] at hr
  | some slug =>
    simp only [hslug] at hr
    cases hlk : h.projects.lookup slug with
    | some q =>
      simp only [hlk, Option.some.injEq, Prod.mk.injEq] at hr
      exact Or.inl hr.2.1.symm
    | none =>
      simp only [hlk] at hr
      by_cases hden : slug ∈ h.projectsWithoutAccess
      · rw [if_pos hden] at hr
        simp only [Option.some.injEq, Prod.mk.injEq] at hr
        exact Or.inl hr.2.1.symm
      · rw [if_neg hden] at hr
        cases hv : GetAndValidateProjectFromPath p h.userId st with
        | none => simp [hv] at hr
        | some t =>
          obtain ⟨vres, vn⟩ := t
          cases vres with
          | error e =>
            simp only [hv, Option.some.injEq, Prod.mk.injEq] at hr
            exact Or.inr (Or.inl ⟨slug, hlk, hden, hr.2.1.symm⟩)
          | ok proj =>
            simp only [hv, Option.some.injEq, Prod.mk.injEq] at hr
            exact Or.inr (Or.inr ⟨slug, proj, hlk, hden, hr.2.1.symm⟩)

/-- A `getProject` step never removes a slug from the denied cache. -/
theorem getProject_denied_mono (h : McfsHandler) (st : Stores) (p : GoStr)
    (res : Except GoStr Project) (h' : McfsHandler) (n : Nat)
    (hr : h.getProject st p = some (res, h', n)) (s : GoStr)
    (hs : s ∈ h.projectsWithoutAccess) : s ∈ h'.projectsWithoutAccess := by
  rcases getProject_state h st p res h' n hr with h1 | ⟨slug, _, _, h1⟩ | ⟨slug, proj, _, _, h1⟩
  · rw [h1]; exact hs
  · rw [h1]; exact List.mem_cons_of_mem _ hs
  · rw [h1]; exact hs

theorem lookup_cons_ne {s k : GoStr} {v : Project} {l : List (GoStr × Project)}
    (hne : (s == k) = false) : List.lookup s ((k, v) :: l) = List.lookup s l := by
  simp [List.lookup, hne]

/-- A `getProject` step never removes or shadows a resolved-cache entry. -/
theorem getProject_lookup_mono (h : McfsHandler) (st : Stores) (p : GoStr)
    (res : Except GoStr Project) (h' : McfsHandler) (n : Nat)
    (hr : h.getProject st p = some (res, h', n)) (s : GoStr) (q : Project)
    (hq : h.projects.lookup s = some q) : h'.projects.lookup s = some q := by
  rcases getProject_state h st p res h' n hr with h1 | ⟨slug, _, _, h1⟩ | ⟨slug, proj, hlk, _, h1⟩
  · rw [h1]; exact hq
  · rw [h1]; exact hq
  · rw [h1]
    by_cases hss : s = slug
    · rw [hss] at hq
      rw [hq] at hlk
      exact absurd hlk (by simp)
    · have hb : (s == slug) = false := beq_eq_false_iff_ne.mpr hss
      show List.lookup s ((slug, proj) :: h.projects) = some q
      rw [lookup_cons_ne hb]
      exact hq

/-- A `getProject` step preserves cache disjointness. -/
theorem getProject_preserves_disjoint (h : McfsHandler) (st : Stores) (p : GoStr)
    (res : Except GoStr Project) (h' : McfsHandler) (n : Nat)
    (hd : cachesDisjoint h)
    (hr : h.getProject st p = some (res, h', n)) : cachesDisjoint h' := by
  rcases getProject_state h st p res h' n hr with h1 | ⟨slug, hlk, _, h1⟩ |
    ⟨slug, proj, hlk, hden, h1⟩
  · rw [h1]; exact hd
  · rw [h1]
    intro s hs
    simp only [List.mem_cons] at hs
    rcases hs with hs | hs
    · rw [hs]; exact hlk
    · exact hd s hs
  · rw [h1]
    intro s hs
    have hsne : (s == slug) = false := beq_eq_false_iff_ne.mpr (fun he => hden (he ▸ hs))
    show List.lookup s ((slug, proj) :: h.projects) = none
    rw [lookup_cons_ne hsne]
    exact hd s hs

/-- Denied-cache membership survives any further sequence of resolves. -/
theorem runResolves_denied_mono (st : Stores) (calls : List GoStr) (h : McfsHandler)
    (s : GoStr) (hs : s ∈ h.projectsWithoutAccess) :
    s ∈ (h.runResolves st calls).projectsWithoutAccess := by
  induction calls generalizing h with
  | nil => simpa [McfsHandler.runResolves] using hs
  | cons p rest ih =>
    simp only [McfsHandler.runResolves]
    cases hr : h.getProject st p with
    | none => exact ih h hs
    | some t =>
      obtain ⟨res, h', n⟩ := t
      exact ih h' (getProject_denied_mono h st p res h' n hr s hs)

/-- Resolved-cache entries survive any further sequence of resolves. -/
theorem runResolves_lookup_mono (st : Stores) (calls : List GoStr) (h : McfsHandler)
    (s : GoStr) (q : Project) (hq : h.projects.lookup s = some q) :
    (h.runResolves st calls).projects.lookup s = some q := by
  induction calls generalizing h with
  | nil => simpa [McfsHandler.runResolves] using hq
  | cons p rest ih =>
    simp only [McfsHandler.runResolves]
    cases hr : h.getProject st p with
    | none => exact ih h hq
    | some t =>
      obtain ⟨res, h', n⟩ := t
      exact ih h' (getProject_lookup_mono h st p res h' n hr s q hq)

/-- Cache disjointness is an invariant of resolve sequences. -/
theorem runResolves_disjoint (st : Stores) (calls : List GoStr) (h : McfsHandler)
    (hd : cachesDisjoint h) : cachesDisjoint (h.runResolves st calls) := by
  induction calls generalizing h with
  | nil => simpa [McfsHandler.runResolves] using hd
  | cons p rest ih =>
    simp only [McfsHandler.runResolves]
    cases hr : h.getProject st p with
    | none => exact ih h hd
    | some t =>
      obtain ⟨res, h', n⟩ := t
      exact ih h' (getProject_preserves_disjoint h st p res h' n hd hr)

/-- C9: in every SFTP session state reachable from a fresh handler by any
sequence of resolves, the resolved-projects cache and the denied-slugs cache
are disjoint: a slug in the denied cache has no resolved-cache entry. -/
theorem sessionCachesDisjoint (st : Stores) (uid : Nat) (root : GoStr)
    (calls : List GoStr) (slug : GoStr)
    (hmem : slug ∈ ((NewMCFSHandler uid root).runResolves st calls).projectsWithoutAccess) :
    ((NewMCFSHandler uid root).runResolves st calls).projects.lookup slug = none :=
  runResolves_disjoint st calls (NewMCFSHandler uid root)
    (fun s hs => by simp [NewMCFSHandler] at hs) slug hmem

/-- Witness for C9: after resolving the unknown slug `nope` it is denied, and
the resolved cache has no entry for it. -/
theorem sessionCachesDisjoint_witness :
    ((NewMCFSHandler 1 "/mcfs".data).runResolves sampleStores
        ["/nope/x".data]).projects.lookup "nope".data = none :=
  sessionCachesDisjoint sampleStores 1 "/mcfs".data ["/nope/x".data] "nope".data (by decide)

/-- C3: in any session, once a slug is in the denied-slugs cache, it stays
there through any further resolves, and resolving any path carrying that
slug fails with the not-found error while issuing zero project-store calls;
likewise, once a slug is in the resolved-projects cache, the cached record
stays, and resolving a path with that slug returns it with zero store
calls. -/
theorem resolverCacheShortCircuit
    (st : Stores) (uid : Nat) (root : GoStr) (pre mid : List GoStr)
    (path dslug path2 cslug : GoStr) (cp : Project)
    (hdpath : GetProjectSlugFromPath path = some dslug)
    (hcpath : GetProjectSlugFromPath path2 = some cslug)
    (hden : dslug ∈ ((NewMCFSHandler uid root).runResolves st pre).projectsWithoutAccess)
    (hcache : ((NewMCFSHandler uid root).runResolves st pre).projects.lookup cslug
      = some cp) :
    dslug ∈ (((NewMCFSHandler uid root).runResolves st pre).runResolves st
        mid).projectsWithoutAccess ∧
    (((NewMCFSHandler uid root).runResolves st pre).runResolves st mid).getProject st path
      = some (.error ("no such project: ".data ++ dslug),
          ((NewMCFSHandler uid root).runResolves st pre).runResolves st mid, 0) ∧
    (((NewMCFSHandler uid root).runResolves st pre).runResolves st mid).projects.lookup cslug
      = some cp ∧
    (((NewMCFSHandler uid root).runResolves st pre).runResolves st mid).getProject st path2
      = some (.ok cp, ((NewMCFSHandler uid root).runResolves st pre).runResolves st mid, 0) := by
  have hd0 : cachesDisjoint ((NewMCFSHandler uid root).runResolves st pre) :=
    runResolves_disjoint st pre _ (fun s hs => by simp [NewMCFSHandler] at hs)
  have hden1 := runResolves_denied_mono st mid _ dslug hden
  have hcache1 := runResolves_lookup_mono st mid _ cslug cp hcache
  have hd1 := runResolves_disjoint st mid _ hd0
  have hlk1 := hd1 dslug hden1
  exact ⟨hden1, getProject_denied_eval _ st path dslug hdpath hlk1 hden1, hcache1,
    getProject_cached_eval _ st path2 cslug cp hcpath hcache1⟩

/-- Witness for C3: after resolving `/nope/x` (denied) and `/alloy-42/x`
(resolved) and then `/beta-1/y`, resolving `/nope/z` fails from the cache
with zero store calls and `/alloy-42/q` hits the resolved cache. -/
theorem resolverCacheShortCircuit_witness :
    "nope".data ∈ (((NewMCFSHandler 1 "/mcfs".data).runResolves sampleStores
        ["/nope/x".data, "/alloy-42/x".data]).runResolves sampleStores
        ["/beta-1/y".data]).projectsWithoutAccess ∧
    (((NewMCFSHandler 1 "/mcfs".data).runResolves sampleStores
        ["/nope/x".data, "/alloy-42/x".data]).runResolves sampleStores
        ["/beta-1/y".data]).getProject sampleStores "/nope/z".data
      = some (.error ("no such project: ".data ++ "nope".data),
          ((NewMCFSHandler 1 "/mcfs".data).runResolves sampleStores
            ["/nope/x".data, "/alloy-42/x".data]).runResolves sampleStores
            ["/beta-1/y".data], 0) ∧
    (((NewMCFSHandler 1 "/mcfs".data).runResolves sampleStores
        ["/nope/x".data, "/alloy-42/x".data]).runResolves sampleStores
        ["/beta-1/y".data]).projects.lookup "alloy-42".data = some projAlloy ∧
    (((NewMCFSHandler 1 "/mcfs".data).runResolves sampleStores
        ["/nope/x".data, "/alloy-42/x".data]).runResolves sampleStores
        ["/beta-1/y".data]).getProject sampleStores "/alloy-42/q".data
      = some (.ok projAlloy,
          ((NewMCFSHandler 1 "/mcfs".data).runResolves sampleStores
            ["/nope/x".data, "/alloy-42/x".data]).runResolves sampleStores
            ["/beta-1/y".data], 0) :=
  resolverCacheShortCircuit sampleStores 1 "/mcfs".data
    ["/nope/x".data, "/alloy-42/x".data] ["/beta-1/y".data]
    "/nope/z".data "nope".data "/alloy-42/q".data "alloy-42".data projAlloy
    (by decide) (by decide) (by decide) (by decide)

/-- A non-panicking `getProject` call means the slug extraction succeeded. -/
theorem getProject_some_slug (h : McfsHandler) (st : Stores) (path : GoStr)
    (t : Except GoStr Project × McfsHandler × Nat)
    (hr : h.getProject st path = some t) :
    ∃ slug, GetProjectSlugFromPath path = some slug := by
  unfold McfsHandler.getProject at hr
  cases hs : GetProjectSlugFromPath path with
  | none => simp [hs] at hr
  | some slug => exact ⟨slug, rfl⟩

/-- C6 (counterexample): `Filecmd` resolves the project before dispatching on
the method, so a `Rename` request with an unknown slug returns the store's
lookup error — which does not start with "unsupport" — rather than the
unsupported-command error.  (No store write happens: the last component is
0.) -/
theorem filecmdNonMkdir_counterexample :
    (NewMCFSHandler 1 "/mcfs".data).filecmd sampleStores "Rename".data "/nope/x".data
      = some (.error "record not found".data,
          { userId := 1, mcfsRoot := "/mcfs".data, projects := [],
            projectsWithoutAccess := ["nope".data] }, 1, 0) ∧
    "unsupport".data.isPrefixOf "record not found".data = false := by decide

/-- C6 (amended): for every `Filecmd` request whose method is not `Mkdir` —
project resolution succeeding or failing alike — no store write operation is
invoked (the write counter is 0) and the call returns an error; when the
project in the path resolves, the error message starts with "unsupport",
and when resolution fails, the returned error is exactly the resolution
error. -/
theorem filecmdNonMkdir (st : Stores) (h : McfsHandler) (method path : GoStr)
    (r : Except GoStr Unit) (h' : McfsHandler) (n w : Nat)
    (hm : method ≠ "Mkdir".data)
    (hrun : h.filecmd st method path = some (r, h', n, w)) :
    w = 0 ∧ exceptIsError r = true ∧
    (resolvedOk (h.getProject st path) = true →
      "unsupport".data.isPrefixOf (exceptErrMsg r) = true) ∧
    (resolvedOk (h.getProject st path) = false →
      r = Except.error (resolutionErr (h.getProject st path))) := by
  cases hgp : h.getProject st path with
  | none =>
    unfold McfsHandler.filecmd at hrun
    simp [hgp] at hrun
  | some t =>
    obtain ⟨res, h2, n2⟩ := t
    cases res with
    | error e =>
      unfold McfsHandler.filecmd at hrun
      simp only [hgp, Option.some.injEq, Prod.mk.injEq] at hrun
      refine ⟨hrun.2.2.2.symm, ?_, ?_, ?_⟩
      · rw [← hrun.1]
        rfl
      · intro hok
        simp [resolvedOk] at hok
      · intro _
        rw [← hrun.1]
        rfl
    | ok p =>
      obtain ⟨slug, hslug⟩ := getProject_some_slug h st path _ hgp
      have hpath : getPathFromRequest path = some (RemoveProjectSlugFromPath path slug) := by
        rw [getPathFromRequest, hslug]
        rfl
      unfold McfsHandler.filecmd at hrun
      simp only [hgp, hpath] at hrun
      rw [if_neg hm] at hrun
      have hbr : ∃ msg, r = Except.error msg ∧ w = 0
          ∧ "unsupport".data.isPrefixOf msg = true := by
        by_cases h1 : method = "Rename".data
        · rw [if_pos h1] at hrun
          simp only [Option.some.injEq, Prod.mk.injEq] at hrun
          exact ⟨"unsupported command: 'Rename'".data, hrun.1.symm, hrun.2.2.2.symm, by decide⟩
        · rw [if_neg h1] at hrun
          by_cases h2m : method = "Rmdir".data
          · rw [if_pos h2m] at hrun
            simp only [Option.some.injEq, Prod.mk.injEq] at hrun
            exact ⟨"unsupported command: 'Rmdir'".data, hrun.1.symm, hrun.2.2.2.symm, by decide⟩
          · rw [if_neg h2m] at hrun
            by_cases h3 : method = "Setstat".data
            · rw [if_pos h3] at hrun
              simp only [Option.some.injEq, Prod.mk.injEq] at hrun
              exact ⟨"unsupported command: 'Setstat'".data, hrun.1.symm, hrun.2.2.2.symm,
                by decide⟩
            · rw [if_neg h3] at hrun
              by_cases h4 : method = "Link".data
              · rw [if_pos h4] at hrun
                simp only [Option.some.injEq, Prod.mk.injEq] at hrun
                exact ⟨"unsupported command: 'Link'".data, hrun.1.symm, hrun.2.2.2.symm,
                  by decide⟩
              · rw [if_neg h4] at hrun
                by_cases h5 : method = "Symlink".data
                · rw [if_pos h5] at hrun
                  simp only [Option.some.injEq, Prod.mk.injEq] at hrun
                  exact ⟨"unsupported command: 'Symlink'".data, hrun.1.symm, hrun.2.2.2.symm,
                    by decide⟩
                · rw [if_neg h5] at hrun
                  simp only [Option.some.injEq, Prod.mk.injEq] at hrun
                  refine ⟨"unsupport command: '".data ++ method ++ "'".data,
                    hrun.1.symm, hrun.2.2.2.symm, ?_⟩
                  have hsplit : ("unsupport command: '".data : GoStr)
                      = "unsupport".data ++ " command: '".data := by decide
                  rw [hsplit, List.append_assoc]
                  exact isPrefixOf_append _ _
      obtain ⟨msg, hr1, hw, hp⟩ := hbr
      refine ⟨hw, ?_, ?_, ?_⟩
      · rw [hr1]
        rfl
      · intro _
        rw [hr1]
        simpa [exceptErrMsg] using hp
      · intro habs
        simp [resolvedOk] at habs

/-- Witness for the amended C6: method `Rename` on a resolvable path returns
the unsupported-command error and performs no store write. -/
theorem filecmdNonMkdir_witness :
    (0 : Nat) = 0 ∧
    exceptIsError (Except.error "unsupported command: 'Rename'".data : Except GoStr Unit)
      = true ∧
    (resolvedOk ((NewMCFSHandler 1 "/mcfs".data).getProject sampleStores
        "/alloy-42/a".data) = true →
      "unsupport".data.isPrefixOf
        (exceptErrMsg (Except.error "unsupported command: 'Rename'".data : Except GoStr Unit))
        = true) ∧
    (resolvedOk ((NewMCFSHandler 1 "/mcfs".data).getProject sampleStores
        "/alloy-42/a".data) = false →
      (Except.error "unsupported command: 'Rename'".data : Except GoStr Unit)
        = Except.error (resolutionErr ((NewMCFSHandler 1 "/mcfs".data).getProject
            sampleStores "/alloy-42/a".data))) :=
  filecmdNonMkdir sampleStores (NewMCFSHandler 1 "/mcfs".data) "Rename".data
    "/alloy-42/a".data (Except.error "unsupported command: 'Rename'".data)
    { userId := 1, mcfsRoot := "/mcfs".data, projects := [("alloy-42".data, projAlloy)],
      projectsWithoutAccess := [] }
    2 0 (by decide) (by decide)

/-- C2: for every authenticated user, `Filelist` with path `/` and method
`List` returns exactly one entry per project reported by the project store's
`GetProjectsForUser`: each entry is a directory whose name is the project's
slug, whose size is the project's reported size, and whose modification
time is the project's updated-at timestamp. -/
theorem filelistRootListing (st : Stores) (h : McfsHandler) (now : Int)
    (ps : List Project) (hps : st.getProjectsForUser h.userId = .ok ps) :
    h.filelist st "List".data "/".data now
      = some (.ok (ps.map fun p =>
          ({ name := p.slug, size := p.size, modTime := p.updatedAt, isDir := true }
            : FileInfo)), h, 1) ∧
    (ps.map fun p =>
        ({ name := p.slug, size := p.size, modTime := p.updatedAt, isDir := true }
          : FileInfo)).length = ps.length := by
  constructor
  · unfold McfsHandler.filelist
    rw [if_pos ⟨rfl, rfl⟩]
    simp only [hps]
    have hfun : (fun project => MCModelFile.toFileInfo
        { name := project.slug, mimeType := "directory".data, size := project.size,
          path := goFilepathJoinRoot project.slug, updatedAt := project.updatedAt,
          uuidRel := [] })
        = fun p : Project =>
          ({ name := p.slug, size := p.size, modTime := p.updatedAt, isDir := true }
            : FileInfo) := by
      funext p
      simp [MCModelFile.toFileInfo]
    rw [hfun]
  · exact List.length_map _ _

/-- Witness for C2: user 1 sees exactly the two accessible projects as
directories named by their slugs. -/
theorem filelistRootListing_witness :
    (NewMCFSHandler 1 "/mcfs".data).filelist sampleStores "List".data "/".data 0
      = some (.ok ([projAlloy, projBeta].map fun p =>
          ({ name := p.slug, size := p.size, modTime := p.updatedAt, isDir := true }
            : FileInfo)), NewMCFSHandler 1 "/mcfs".data, 1) ∧
    ([projAlloy, projBeta].map fun p =>
        ({ name := p.slug, size := p.size, modTime := p.updatedAt, isDir := true }
          : FileInfo)).length = ([projAlloy, projBeta] : List Project).length :=
  filelistRootListing sampleStores (NewMCFSHandler 1 "/mcfs".data) 0
    [projAlloy, projBeta] (by decide)

/-- C1 (code bug, evaluated at the failing input): `createMCFileFromRequest`
never assigns `mcfile.mcfsRoot`, so a write handle built by `Filewrite`
carries the empty root; on close with duplicate-found = true the deferred
removal targets `file.ToUnderlyingFilePath("")`, which differs from the
just-written physical path under the configured root `/mcfs` — the written
file stays on disk — and the removal error is discarded
(`_ = os.Remove(...)`), so nothing is logged; close still returns nil. -/
theorem closeDedupRemovesWrongPath :
    ((Filewrite (NewMCFSHandler 1 "/mcfs".data) fileLocal []).1).mcfsRoot = [] ∧
    toUnderlyingFilePath [] fileLocal ≠ toUnderlyingFilePath "/mcfs".data fileLocal ∧
    (((Filewrite (NewMCFSHandler 1 "/mcfs".data) fileLocal []).1).close true none
        (Filewrite (NewMCFSHandler 1 "/mcfs".data) fileLocal []).2 []).disk
      = [toUnderlyingFilePath "/mcfs".data fileLocal] ∧
    (((Filewrite (NewMCFSHandler 1 "/mcfs".data) fileLocal []).1).close true none
        (Filewrite (NewMCFSHandler 1 "/mcfs".data) fileLocal []).2 []).logged = [] ∧
    (((Filewrite (NewMCFSHandler 1 "/mcfs".data) fileLocal []).1).close true none
        (Filewrite (NewMCFSHandler 1 "/mcfs".data) fileLocal []).2 []).returned = none := by
  decide

/-- C7 (counterexample): user 1's project `alloy-42` resolves and the store's
root-directory lookup would fail, so the claim requires the visitor to be
invoked exactly once with (path, nil, err); instead `WalkDir` returns the
error "not implemented" with zero visitor invocations and an untouched
handler. -/
theorem walkDirPreOrder_counterexample :
    sampleStores.getProjectBySlug "alloy-42".data = .ok projAlloy ∧
    sampleStores.userCanAccessProject 1 projAlloy.id = true ∧
    exceptIsError (sampleStores.getDirByPath projAlloy.id "/dir1".data) = true ∧
    WalkDir (NewSCPHandler "/mcfs".data) sampleStores 1 "/alloy-42/dir1".data
        (fun _ _ _ => WalkRes.ok) 9
      = some (.error "not implemented".data, [], NewSCPHandler "/mcfs".data) :=
  ⟨by decide, by decide, by decide, rfl⟩

/-- C7 (amended): `WalkDir` is disabled: for every handler state, session
user, path, visitor and recursion budget it returns the error
"not implemented" without invoking the visitor, consulting a store, or
changing the handler; the pre-order traversal (`walkDir` and the code after
the guard) is unreachable. -/
theorem walkDirNotImplemented (h : ScpHandler) (st : Stores) (userId : Nat)
    (path : GoStr) (fn : Visitor) (fuel : Nat) :
    WalkDir h st userId path fn fuel = some (.error "not implemented".data, [], h) := rfl
